import Mathlib

/-!
Verification of the bitchat mesh-node kernel against its specification.

Byte sequences are modelled as `List Nat` with every element below 256;
Go strings are byte strings and are modelled the same way.  Machine
integers are `Nat` with explicit `% 2^w` truncation wherever the Go code
performs a narrowing conversion.
-/

/-- A Go byte string (both `[]byte` and `string`). -/
abbrev Bytes := List Nat

/-- Big-endian 8-byte encoding of a `uint64` value (binary.Write BigEndian). -/
def u64BE (n : Nat) : Bytes :=
  [n / 72057594037927936 % 256, n / 281474976710656 % 256,
   n / 1099511627776 % 256, n / 4294967296 % 256,
   n / 16777216 % 256, n / 65536 % 256, n / 256 % 256, n % 256]

/-- Big-endian 4-byte encoding of a `uint32` value. -/
def u32BE (n : Nat) : Bytes :=
  [n / 16777216 % 256, n / 65536 % 256, n / 256 % 256, n % 256]

/-- Big-endian interpretation of a byte sequence (binary.Read BigEndian). -/
def beToNat (l : Bytes) : Nat :=
  l.foldl (fun a b => a * 256 + b) 0

/-- Message type constants from internal/protocol/types.go. -/
def MessageTypeAnnounce : Nat := 0x01
def MessageTypeKeyExchange : Nat := 0x02
def MessageTypeLeave : Nat := 0x03
def MessageTypeMessage : Nat := 0x04
def MessageTypeFragmentStart : Nat := 0x05
def MessageTypeFragmentContinue : Nat := 0x06
def MessageTypeFragmentEnd : Nat := 0x07
def MessageTypeDeliveryAck : Nat := 0x0A
def MessageTypeReadReceipt : Nat := 0x0C

/-- BroadcastRecipient: eight 0xFF bytes. -/
def BroadcastRecipient : Bytes := [0xFF, 0xFF, 0xFF, 0xFF, 0xFF, 0xFF, 0xFF, 0xFF]

/-- The wire packet (internal/protocol/types.go BitchatPacket).  The Go
`nil` slice and the empty slice coincide on the wire and are both
modelled as `[]`.  The non-wire fields `ID` and `Nonce` are omitted:
`Encode` never writes them and `Decode` never sets them. -/
structure BitchatPacket where
  version : Nat
  type : Nat
  senderID : Bytes
  recipientID : Bytes
  timestamp : Nat
  payload : Bytes
  signature : Bytes
  ttl : Nat
  deriving Repr, DecidableEq

/-- Well-formedness induced by the Go field types: `uint8` fields are
below 256, the timestamp is a `uint64`. -/
def WFPacket (p : BitchatPacket) : Prop :=
  p.version < 256 ∧ p.type < 256 ∧ p.ttl < 256 ∧ p.timestamp < 18446744073709551616

/-- internal/protocol/binary.go Encode: version, type, len8(sender),
sender, len8(recipient), recipient, u64-BE timestamp, u32-BE payload
length, payload, len8(signature), signature, TTL.  The length bytes are
written through Go narrowing conversions, hence the `% 256` / `% 2^32`. -/
def Encode (p : BitchatPacket) : Bytes :=
  p.version :: p.type :: (p.senderID.length % 256) ::
    (p.senderID ++
     [p.recipientID.length % 256] ++ p.recipientID ++
     u64BE p.timestamp ++
     u32BE (p.payload.length % 4294967296) ++ p.payload ++
     [p.signature.length % 256] ++ p.signature ++
     [p.ttl])

/-- Decode errors (internal/protocol/binary.go). -/
inductive DecodeErr where
  | bufferTooSmall
  | readError
  deriving Repr, DecidableEq

/-- buf.ReadByte: fails on an exhausted buffer. -/
def readByte (d : Bytes) : Except DecodeErr (Nat × Bytes) :=
  match d with
  | [] => .error .readError
  | b :: rest => .ok (b, rest)

/-- io.ReadFull of `n` bytes: fails when fewer than `n` remain. -/
def readBytes (n : Nat) (d : Bytes) : Except DecodeErr (Bytes × Bytes) :=
  if d.length < n then .error .readError else .ok (d.take n, d.drop n)

/-- internal/protocol/binary.go Decode.  Trailing bytes are ignored,
exactly as the Go decoder leaves them unread in the buffer. -/
def Decode (data : Bytes) : Except DecodeErr BitchatPacket :=
  if data.length < 13 then .error .bufferTooSmall
  else do
    let (version, r0) ← readByte data
    let (mtype, r1) ← readByte r0
    let (sLen, r2) ← readByte r1
    let (senderID, r3) ← readBytes sLen r2
    let (rLen, r4) ← readByte r3
    let (recipientID, r5) ← readBytes rLen r4
    let (tsBytes, r6) ← readBytes 8 r5
    let (plBytes, r7) ← readBytes 4 r6
    let (payload, r8) ← readBytes (beToNat plBytes) r7
    let (sigLen, r9) ← readByte r8
    let (signature, r10) ← readBytes sigLen r9
    let (ttl, _) ← readByte r10
    .ok { version := version, type := mtype, senderID := senderID,
          recipientID := recipientID, timestamp := beToNat tsBytes,
          payload := payload, signature := signature, ttl := ttl }

theorem readBytes_exact (l r : Bytes) : readBytes l.length (l ++ r) = .ok (l, r) := by
  simp [readBytes, List.take_left, List.drop_left]

theorem readBytes_len (n : Nat) (l r : Bytes) (h : l.length = n) :
    readBytes n (l ++ r) = .ok (l, r) := by
  subst h; exact readBytes_exact l r

theorem beToNat_u64BE (n : Nat) (h : n < 18446744073709551616) :
    beToNat (u64BE n) = n := by
  simp only [u64BE, beToNat, List.foldl]
  omega

theorem beToNat_u32BE (n : Nat) (h : n < 4294967296) :
    beToNat (u32BE n) = n := by
  simp only [u32BE, beToNat, List.foldl]
  omega

theorem u64BE_length (n : Nat) : (u64BE n).length = 8 := rfl

theorem u32BE_length (n : Nat) : (u32BE n).length = 4 := rfl

theorem encode_length (p : BitchatPacket) :
    (Encode p).length = 18 + p.senderID.length + p.recipientID.length
      + p.payload.length + p.signature.length := by
  simp [Encode, u64BE, u32BE]
  omega

/-- C1: for every well-formed packet whose sender id, recipient id and
signature each fit in one length byte and whose payload length fits in a
`uint32`, decoding the encoding returns the packet unchanged in every
wire field. -/
theorem decode_encode_roundtrip (p : BitchatPacket) (hwf : WFPacket p)
    (hs : p.senderID.length ≤ 255) (hr : p.recipientID.length ≤ 255)
    (hsig : p.signature.length ≤ 255) (hp : p.payload.length < 4294967296) :
    Decode (Encode p) = .ok p := by
  have hlen : ¬ (Encode p).length < 13 := by
    rw [encode_length]; omega
  obtain ⟨hv, ht, httl, hts⟩ := hwf
  have hsm : p.senderID.length % 256 = p.senderID.length := Nat.mod_eq_of_lt (by omega)
  have hrm : p.recipientID.length % 256 = p.recipientID.length := Nat.mod_eq_of_lt (by omega)
  have hsigm : p.signature.length % 256 = p.signature.length := Nat.mod_eq_of_lt (by omega)
  have hpm : p.payload.length % 4294967296 = p.payload.length := Nat.mod_eq_of_lt (by omega)
  simp only [Decode, hlen, if_false]
  simp only [Encode, hsm, hrm, hsigm, hpm, List.append_assoc, List.cons_append,
    List.singleton_append]
  simp only [readByte, bind, Except.bind, List.nil_append, readBytes_exact,
    readBytes_len _ _ _ (u64BE_length p.timestamp),
    readBytes_len _ _ _ (u32BE_length p.payload.length),
    beToNat_u64BE _ hts, beToNat_u32BE _ hp]

/-- Concrete packet used to witness the round-trip theorem. -/
def samplePacket : BitchatPacket :=
  { version := 1, type := MessageTypeMessage, senderID := [1, 2, 3, 4, 5, 6, 7, 8],
    recipientID := BroadcastRecipient, timestamp := 1700000000000,
    payload := [104, 105], signature := List.replicate 64 9, ttl := 3 }

/-- Witness for C1 at a concrete broadcast packet. -/
theorem decode_encode_roundtrip_witness :
    WFPacket samplePacket ∧ Decode (Encode samplePacket) = .ok samplePacket :=
  ⟨⟨by decide, by decide, by decide, by decide⟩,
   decode_encode_roundtrip samplePacket ⟨by decide, by decide, by decide, by decide⟩
     (by decide) (by decide) (by decide) (by decide)⟩

/-! ## Message padding (internal/protocol/binary.go MessagePadding) -/

/-- Standard block sizes for padding. -/
def blockSizes : List Nat := [256, 512, 1024, 2048]

/-- MessagePadding.Pad: PKCS#7-style padding up to `targetSize`.  Returns
the data unchanged when it already reaches the target or when the needed
padding exceeds 255 bytes.  The filler bytes are `byte(i % 256)` for the
absolute index `i`, exactly as in the source. -/
def pad (data : Bytes) (targetSize : Nat) : Bytes :=
  if targetSize ≤ data.length then data
  else
    let paddingNeeded := targetSize - data.length
    if 255 < paddingNeeded then data
    else data ++ (List.range (paddingNeeded - 1)).map (fun i => (data.length + i) % 256)
      ++ [paddingNeeded]

/-- MessagePadding.Unpad: reads the final byte as the padding length and
strips that many bytes; out-of-range values leave the data unchanged. -/
def unpad (data : Bytes) : Bytes :=
  if data.length = 0 then data
  else
    let paddingLength := data.getLast?.getD 0
    if paddingLength = 0 ∨ data.length < paddingLength then data
    else data.take (data.length - paddingLength)

/-- MessagePadding.OptimalBlockSize: smallest block that fits the data
plus a 16-byte cipher tag, else the data size itself. -/
def optimalBlockSize (dataSize : Nat) : Nat :=
  match blockSizes.find? (fun b => decide (dataSize + 16 ≤ b)) with
  | some b => b
  | none => dataSize

theorem getLast?_append_singleton (l : List Nat) (a : Nat) :
    (l ++ [a]).getLast? = some a := by
  induction l with
  | nil => rfl
  | cons x xs ih =>
    rw [List.cons_append, List.getLast?_cons, ih]
    rfl

theorem unpad_eq (data : Bytes) :
    unpad data = if data.length = 0 then data
      else if data.getLast?.getD 0 = 0 ∨ data.length < data.getLast?.getD 0 then data
      else data.take (data.length - data.getLast?.getD 0) := rfl

/-- Data on which Pad skips padding (needed padding 271 > 255) but whose
last byte looks like a padding length of 1, so Unpad strips a byte. -/
def padCexData : Bytes := List.replicate 240 0 ++ [1]

set_option maxRecDepth 4000 in
/-- C8 counterexample: Unpad is not a full inverse of Pad at the optimal
block size.  For 241 bytes of data the optimal block is 512, the needed
padding (271) exceeds 255 so Pad returns the data unchanged, and Unpad
then strips one byte because the final byte is 1. -/
theorem pad_unpad_not_inverse :
    unpad (pad padCexData (optimalBlockSize padCexData.length)) ≠ padCexData := by
  decide

/-- C8 (amended): whenever Pad actually pads — the data is below the
optimal block and the needed padding fits in one byte — the padded
output has exactly the block length, carries the padding length in its
final byte, and Unpad recovers the original data. -/
theorem pad_unpad_roundtrip (data : Bytes)
    (hlt : data.length < optimalBlockSize data.length)
    (hneed : optimalBlockSize data.length - data.length ≤ 255) :
    unpad (pad data (optimalBlockSize data.length)) = data
    ∧ (pad data (optimalBlockSize data.length)).length = optimalBlockSize data.length
    ∧ (pad data (optimalBlockSize data.length)).getLast?
        = some (optimalBlockSize data.length - data.length) := by
  set b := optimalBlockSize data.length with hb
  set k := b - data.length with hk
  have hk1 : 1 ≤ k := by omega
  have hpad : pad data b
      = data ++ (List.range (k - 1)).map (fun i => (data.length + i) % 256) ++ [k] := by
    unfold pad
    rw [if_neg (by omega), if_neg (by omega)]
  have hlenpad : (pad data b).length = b := by
    rw [hpad]; simp; omega
  have hlast : (pad data b).getLast? = some k := by
    rw [hpad]
    exact getLast?_append_singleton _ _
  refine ⟨?_, hlenpad, hlast⟩
  rw [unpad_eq, hlast]
  simp only [Option.getD_some]
  rw [if_neg (by omega), if_neg (by push_neg; omega)]
  rw [hlenpad, show b - k = data.length by omega, hpad, List.append_assoc, List.take_left]

/-- Witness for the amended C8 round trip at ten bytes of data. -/
theorem pad_unpad_roundtrip_witness :
    ((List.replicate 10 7 : Bytes).length < optimalBlockSize (List.replicate 10 7 : Bytes).length
      ∧ optimalBlockSize (List.replicate 10 7 : Bytes).length
          - (List.replicate 10 7 : Bytes).length ≤ 255)
    ∧ unpad (pad (List.replicate 10 7) (optimalBlockSize (List.replicate 10 7 : Bytes).length))
        = List.replicate 10 7 :=
  ⟨⟨by decide, by decide⟩, (pad_unpad_roundtrip (List.replicate 10 7) (by decide) (by decide)).1⟩

/-- C10: Unpad is total and always returns a prefix of its input — the
input unchanged when the final byte is zero or exceeds the input length,
and the input minus its last final-byte-many bytes otherwise. -/
theorem unpad_safe (data : Bytes) :
    (∃ t, data = unpad data ++ t)
    ∧ (∀ p, data.getLast? = some p → p ≠ 0 → p ≤ data.length →
        unpad data = data.take (data.length - p))
    ∧ (∀ p, data.getLast? = some p → (p = 0 ∨ data.length < p) → unpad data = data)
    ∧ (data = [] → unpad data = data) := by
  refine ⟨?_, ?_, ?_, fun h => by simp [unpad, h]⟩
  · rw [unpad_eq]
    split_ifs with h1 h2
    · exact ⟨[], by simp⟩
    · exact ⟨[], by simp⟩
    · exact ⟨data.drop (data.length - data.getLast?.getD 0),
        (List.take_append_drop _ _).symm⟩
  · intro p hp hne hle
    have h0 : ¬ data.length = 0 := by
      cases data with
      | nil => simp at hp
      | cons x xs => simp
    have hgd : data.getLast?.getD 0 = p := by rw [hp]; rfl
    rw [unpad_eq, if_neg h0, hgd, if_neg (by push_neg; omega)]
  · intro p hp hcond
    have h0 : ¬ data.length = 0 := by
      cases data with
      | nil => simp at hp
      | cons x xs => simp
    have hgd : data.getLast?.getD 0 = p := by rw [hp]; rfl
    rw [unpad_eq, if_neg h0, hgd, if_pos hcond]

/-- Witness for C10: one input that is unpadded and one whose final byte
is out of range and is returned unchanged. -/
theorem unpad_safe_witness :
    unpad [3, 2, 1] = [3, 2, 1].take 2 ∧ unpad [7, 9] = [7, 9] :=
  ⟨(unpad_safe [3, 2, 1]).2.1 1 rfl (by decide) (by decide),
   (unpad_safe [7, 9]).2.2.1 9 rfl (by decide)⟩


/-! ## Fragmentation (unnamed LinuxMeshProvider.sendFragmentedPacket) -/

/-- Maximum over-the-air packet size (bytes). -/
def MaxPacketSize : Nat := 512

/-- Maximum fragment payload size (bytes). -/
def MaxFragmentPayloadSize : Nat := 480

/-- The fragment packets built by sendFragmentedPacket for the encoded
bytes `data` of `packet`.  Each fragment payload is the 4-byte slot
filled from `fragmentID` by Go `copy`, then `byte(i)`, `byte(total)`,
then the data slice; the fragment packet has no signature (`nil`). -/
def mkFragments (packet : BitchatPacket) (data : Bytes) (fragmentID : Bytes) :
    List BitchatPacket :=
  let numFragments := (data.length + MaxFragmentPayloadSize - 1) / MaxFragmentPayloadSize
  let idField := fragmentID.take 4 ++ List.replicate (4 - fragmentID.length) 0
  (List.range numFragments).map (fun i =>
    let fragType := if i = 0 then MessageTypeFragmentStart
      else if i = numFragments - 1 then MessageTypeFragmentEnd
      else MessageTypeFragmentContinue
    let offset := i * MaxFragmentPayloadSize
    let endIdx := min (offset + MaxFragmentPayloadSize) data.length
    let fragPayload := idField ++ [i % 256, numFragments % 256]
      ++ (data.drop offset).take (endIdx - offset)
    { version := packet.version, type := fragType, senderID := packet.senderID,
      recipientID := packet.recipientID, timestamp := packet.timestamp,
      payload := fragPayload, signature := [], ttl := packet.ttl })

/-- A concrete oversize packet: 8-byte sender and recipient ids and a
927-byte payload, encoding to 961 wire bytes. -/
def fragCexPacket : BitchatPacket :=
  { version := 1, type := MessageTypeMessage, senderID := [1, 2, 3, 4, 5, 6, 7, 8],
    recipientID := [9, 10, 11, 12, 13, 14, 15, 16], timestamp := 1700000000000,
    payload := List.replicate 927 7, signature := [], ttl := 5 }

def fragCexData : Bytes := Encode fragCexPacket

def fragCexID : Bytes := [170, 187, 204, 221]

set_option maxRecDepth 100000 in
/-- C4: at the concrete 961-byte encoding, sendFragmentedPacket emits
exactly ceil(961/480) = 3 fragments typed Start/Continue/End whose
payloads are fragId(4), index(1), total(1) followed by the slice, whose
slices concatenate back to the original encoding — but the first two
encoded fragments are 520 bytes each, exceeding the 512-byte maximum
packet size the claim asserts. -/
theorem fragments_exceed_512 :
    fragCexData.length = 961
    ∧ MaxPacketSize < fragCexData.length
    ∧ (mkFragments fragCexPacket fragCexData fragCexID).length = 3
    ∧ (mkFragments fragCexPacket fragCexData fragCexID).map BitchatPacket.type
        = [MessageTypeFragmentStart, MessageTypeFragmentContinue, MessageTypeFragmentEnd]
    ∧ ((mkFragments fragCexPacket fragCexData fragCexID).map
        (fun f => f.payload.take 4)) = [fragCexID, fragCexID, fragCexID]
    ∧ ((mkFragments fragCexPacket fragCexData fragCexID).map
        (fun f => f.payload.drop 6)).flatten = fragCexData
    ∧ ((mkFragments fragCexPacket fragCexData fragCexID).map
        (fun f => (Encode f).length)) = [520, 520, 41]
    ∧ ¬ (520 ≤ MaxPacketSize) := by
  refine ⟨by decide, by decide, by decide, by decide, by decide, by decide, by decide, by decide⟩

/-! ## Router (unnamed Router.RoutePacket, pkg/mesh MessageRouter) -/

structure RoutingConfigS where
  maxHops : Nat
  allowRelay : Bool
  allowBroadcast : Bool
  blockedPeers : List Bytes
  deriving Repr, DecidableEq

def defaultRoutingConfigS : RoutingConfigS :=
  { maxHops := 3, allowRelay := true, allowBroadcast := true, blockedPeers := [] }

def isBlockedPeer (blocked : List Bytes) (peerID : Bytes) : Bool :=
  blocked.contains peerID

/-- Router.RoutePacket: returns the packet (with its TTL mutated exactly
as the Go code mutates it in place) together with the list of
(packet, targetPeer) sends performed through sendFunc. -/
def routePacket (cfg : RoutingConfigS) (packet : BitchatPacket)
    (knownPeers : List Bytes) : BitchatPacket × List (BitchatPacket × Bytes) :=
  if isBlockedPeer cfg.blockedPeers packet.senderID then (packet, [])
  else if packet.ttl = 0 then (packet, [])
  else
    let p := { packet with ttl := packet.ttl - 1 }
    if p.recipientID = [] then
      if ¬ cfg.allowBroadcast then (p, [])
      else (p, (knownPeers.filter
        (fun peer => ¬ isBlockedPeer cfg.blockedPeers peer)).map (fun peer => (p, peer)))
    else
      if isBlockedPeer cfg.blockedPeers p.recipientID then (p, [])
      else (p, [(p, p.recipientID)])

/-- MessageRouter.DecreaseAndCheckTTL: refuses packets whose TTL is at
most 1, otherwise decrements and accepts. -/
def decreaseAndCheckTTL (packet : BitchatPacket) : Bool × BitchatPacket :=
  if packet.ttl ≤ 1 then (false, packet)
  else (true, { packet with ttl := packet.ttl - 1 })

/-- Broadcast packet arriving with TTL 1: after the decrement its TTL is
0, yet RoutePacket still relays it. -/
def ttlCexPacket : BitchatPacket :=
  { version := 1, type := MessageTypeMessage, senderID := [1, 2, 3, 4, 5, 6, 7, 8],
    recipientID := [], timestamp := 1000, payload := [104, 105], signature := [],
    ttl := 1 }

/-- C3: RoutePacket checks the TTL before decrementing and then sends
unconditionally, so a packet whose TTL is 0 after the decrement is still
relayed to a peer; the sibling DecreaseAndCheckTTL refuses the same
packet. -/
theorem routePacket_relays_at_ttl_zero :
    (routePacket defaultRoutingConfigS ttlCexPacket [[9, 9, 9, 9, 9, 9, 9, 9]]).2
      = [({ ttlCexPacket with ttl := 0 }, [9, 9, 9, 9, 9, 9, 9, 9])]
    ∧ ((routePacket defaultRoutingConfigS ttlCexPacket [[9, 9, 9, 9, 9, 9, 9, 9]]).2.map
        (fun s => s.1.ttl)) = [0]
    ∧ (decreaseAndCheckTTL ttlCexPacket).1 = false := by
  refine ⟨by decide, by decide, by decide⟩

/-! ## Encryption service (unnamed crypto EncryptionService) -/

inductive CryptoErr where
  | invalidPublicKey
  | invalidNonce
  | decryptionFailed
  | encryptionFailed
  | noSharedSecret
  deriving Repr, DecidableEq

/-- The ASCII bytes of "bitchat-v1". -/
def bitchatV1Info : Bytes := [98, 105, 116, 99, 104, 97, 116, 45, 118, 49]

/-- The arguments of one `hkdf.New` + read of `outLen` bytes.  The Go
signature is `hkdf.New(hash, secret, salt, info)`. -/
structure HKDFCall where
  secret : Bytes
  salt : Bytes
  info : Bytes
  outLen : Nat
  deriving Repr, DecidableEq

/-- Go map lookup over an association list (later inserts shadow). -/
def mapLookup {α : Type} (m : List (Bytes × α)) (k : Bytes) : Option α :=
  (m.find? (fun e => e.1 == k)).map (fun e => e.2)

/-- Go map store. -/
def mapInsert {α : Type} (k : Bytes) (v : α) (m : List (Bytes × α)) : List (Bytes × α) :=
  (k, v) :: m

/-- Key state of the EncryptionService. -/
structure EncState where
  privateKey : Bytes
  publicKey : Bytes
  signingPublicKey : Bytes
  identityPublicKey : Bytes
  peerPublicKeys : List (Bytes × Bytes)
  peerSigningKeys : List (Bytes × Bytes)
  peerIdentityKeys : List (Bytes × Bytes)
  sharedSecrets : List (Bytes × Bytes)
  deriving DecidableEq

/-- Result of AddPeerPublicKey: the (possibly unchanged) key state, the
HKDF invocation made (if any), and the returned error (if any). -/
structure AddKeyResult where
  state : EncState
  hkdfCall : Option HKDFCall
  error : Option CryptoErr
  deriving DecidableEq

/-- EncryptionService.AddPeerPublicKey.  Rejects blobs whose length is
not 96; otherwise splits the blob into the three 32-byte keys, stores
them, computes the X25519 shared secret with the local private key, and
derives the session key.  The Go call is
`hkdf.New(sha256.New, sharedKey, []byte("bitchat-v1"), nil)`: the third
argument of `hkdf.New` is the salt and the fourth the info, so
"bitchat-v1" is the salt and the info is empty. -/
def addPeerPublicKey (x25519 : Bytes → Bytes → Bytes) (hkdfSHA256 : HKDFCall → Bytes)
    (es : EncState) (peerID : Bytes) (publicKeyData : Bytes) : AddKeyResult :=
  if publicKeyData.length ≠ 96 then ⟨es, none, some CryptoErr.invalidPublicKey⟩
  else
    let keyAgreementKey := publicKeyData.take 32
    let signingKey := (publicKeyData.drop 32).take 32
    let identityKey := (publicKeyData.drop 64).take 32
    let sharedKey := x25519 es.privateKey keyAgreementKey
    let call : HKDFCall := ⟨sharedKey, bitchatV1Info, [], 32⟩
    let derivedKey := hkdfSHA256 call
    ⟨{ es with
        peerPublicKeys := mapInsert peerID keyAgreementKey es.peerPublicKeys,
        peerSigningKeys := mapInsert peerID signingKey es.peerSigningKeys,
        peerIdentityKeys := mapInsert peerID identityKey es.peerIdentityKeys,
        sharedSecrets := mapInsert peerID derivedKey es.sharedSecrets },
      some call, none⟩

/-- A concrete key state for counterexamples and witnesses. -/
def encCexState : EncState :=
  { privateKey := List.replicate 32 1, publicKey := List.replicate 32 2,
    signingPublicKey := List.replicate 32 3, identityPublicKey := List.replicate 32 4,
    peerPublicKeys := [], peerSigningKeys := [], peerIdentityKeys := [],
    sharedSecrets := [] }

/-- C6 counterexample: registering a concrete valid 96-byte bundle makes
an HKDF call whose info is empty, not "bitchat-v1"; the bytes
"bitchat-v1" are passed as the HKDF salt instead. -/
theorem addPeerPublicKey_info_not_bitchatV1 :
    ((addPeerPublicKey (fun _ k => k) (fun c => List.replicate c.outLen 0)
        encCexState [1, 1, 1, 1, 1, 1, 1, 1] (List.replicate 96 5)).hkdfCall.map
      HKDFCall.info) ≠ some bitchatV1Info
    ∧ ((addPeerPublicKey (fun _ k => k) (fun c => List.replicate c.outLen 0)
        encCexState [1, 1, 1, 1, 1, 1, 1, 1] (List.replicate 96 5)).hkdfCall.map
      HKDFCall.salt) = some bitchatV1Info := by
  refine ⟨by decide, by decide⟩

/-- C6 (amended): a blob of length other than 96 is rejected with the
invalid-key error leaving the key maps unchanged; a 96-byte blob stores
the X25519 key (bytes 0-31), the signing key (bytes 32-63) and the
identity key (bytes 64-95) under the peer id, and derives a 32-byte
session key via HKDF-SHA256 with salt "bitchat-v1" and empty info over
the X25519 shared secret. -/
theorem addPeerPublicKey_spec (x25519 : Bytes → Bytes → Bytes) (hkdf : HKDFCall → Bytes)
    (es : EncState) (peerID data : Bytes)
    (hlen : ∀ c, (hkdf c).length = c.outLen) :
    (data.length ≠ 96 →
      addPeerPublicKey x25519 hkdf es peerID data
        = ⟨es, none, some CryptoErr.invalidPublicKey⟩)
    ∧ (data.length = 96 →
        (addPeerPublicKey x25519 hkdf es peerID data).error = none
        ∧ mapLookup (addPeerPublicKey x25519 hkdf es peerID data).state.peerPublicKeys
            peerID = some (data.take 32)
        ∧ mapLookup (addPeerPublicKey x25519 hkdf es peerID data).state.peerSigningKeys
            peerID = some ((data.drop 32).take 32)
        ∧ mapLookup (addPeerPublicKey x25519 hkdf es peerID data).state.peerIdentityKeys
            peerID = some ((data.drop 64).take 32)
        ∧ (addPeerPublicKey x25519 hkdf es peerID data).hkdfCall
            = some ⟨x25519 es.privateKey (data.take 32), bitchatV1Info, [], 32⟩
        ∧ mapLookup (addPeerPublicKey x25519 hkdf es peerID data).state.sharedSecrets
            peerID = some (hkdf ⟨x25519 es.privateKey (data.take 32), bitchatV1Info, [], 32⟩)
        ∧ ∀ key, mapLookup (addPeerPublicKey x25519 hkdf es peerID data).state.sharedSecrets
            peerID = some key → key.length = 32) := by
  constructor
  · intro h
    simp [addPeerPublicKey, h]
  · intro h
    refine ⟨?_, ?_, ?_, ?_, ?_, ?_, ?_⟩ <;>
      simp [addPeerPublicKey, h, mapLookup, mapInsert]
    exact hlen _

/-- Witness for the amended C6 at a concrete 96-byte bundle. -/
theorem addPeerPublicKey_spec_witness :
    (List.replicate 96 5 : Bytes).length = 96
    ∧ (addPeerPublicKey (fun _ k => k) (fun c => List.replicate c.outLen 0) encCexState
        [2, 2] (List.replicate 96 5)).hkdfCall
      = some ⟨(List.replicate 96 5 : Bytes).take 32, bitchatV1Info, [], 32⟩ :=
  ⟨by decide,
   ((addPeerPublicKey_spec (fun _ k => k) (fun c => List.replicate c.outLen 0)
      encCexState [2, 2] (List.replicate 96 5) (fun c => by simp)).2 (by decide)).2.2.2.2.1⟩

/-! ## Retry scheduler (internal/service RetryService) -/

/-- Durations and instants are exact rationals standing for Go's
nanosecond `time.Duration` / monotonic `time.Time` values. -/
structure RetryConfigS where
  maxRetries : Nat
  initialBackoff : ℚ
  backoffFactor : ℚ
  maxBackoff : ℚ
  maxRetryTime : ℚ
  deriving DecidableEq

/-- DefaultRetryConfig: 5 retries, 5 s initial, factor 1.5, 2 min cap,
30 min total. -/
def defaultRetryConfig : RetryConfigS :=
  { maxRetries := 5, initialBackoff := 5000000000, backoffFactor := 3 / 2,
    maxBackoff := 120000000000, maxRetryTime := 1800000000000 }

/-- One RetryItem, minus the Go callback closure: callbacks are emitted
as events by the operations below. -/
structure RetryItemS where
  targetPeerID : Bytes
  attempts : Nat
  firstAttempt : ℚ
  nextAttempt : ℚ
  deriving DecidableEq

/-- The backoff computed inside retryMessage after the increment:
`min(MaxBackoff, InitialBackoff * (attempts-1) * BackoffFactor)` where
`attempts` is the already-incremented counter. -/
def computeBackoff (cfg : RetryConfigS) (attempts : Nat) : ℚ :=
  min cfg.maxBackoff (cfg.initialBackoff * ((attempts - 1 : Nat) : ℚ) * cfg.backoffFactor)

/-- RetryService.retryMessage: increments the attempt counter and
schedules the next attempt. -/
def retryMessage (cfg : RetryConfigS) (now : ℚ) (item : RetryItemS) : RetryItemS :=
  { item with
    attempts := item.attempts + 1,
    nextAttempt := now + computeBackoff cfg (item.attempts + 1) }

/-- C7: each retry attempt increments the attempt count and sets the
next-attempt time to now + min(MaxBackoff, InitialBackoff * attempts *
BackoffFactor), where `attempts` is the count before the increment; the
computed backoff is monotonically non-decreasing in the attempt count. -/
theorem retryMessage_backoff (cfg : RetryConfigS) (now : ℚ) (item : RetryItemS)
    (hib : 0 ≤ cfg.initialBackoff) (hbf : 0 ≤ cfg.backoffFactor) :
    (retryMessage cfg now item).attempts = item.attempts + 1
    ∧ (retryMessage cfg now item).nextAttempt
        = now + min cfg.maxBackoff
            (cfg.initialBackoff * (item.attempts : ℚ) * cfg.backoffFactor)
    ∧ (∀ a b : Nat, a ≤ b → computeBackoff cfg a ≤ computeBackoff cfg b) := by
  refine ⟨rfl, ?_, ?_⟩
  · simp [retryMessage, computeBackoff]
  · intro a b hab
    unfold computeBackoff
    refine min_le_min le_rfl ?_
    have hc : ((a - 1 : Nat) : ℚ) ≤ ((b - 1 : Nat) : ℚ) := by
      exact_mod_cast Nat.sub_le_sub_right hab 1
    exact mul_le_mul_of_nonneg_right (mul_le_mul_of_nonneg_left hc hib) hbf

def sampleRetryItem : RetryItemS := ⟨[2], 1, 0, 5000000000⟩

/-- Witness for C7 at the default configuration. -/
theorem retryMessage_backoff_witness :
    ((0 : ℚ) ≤ defaultRetryConfig.initialBackoff
      ∧ (0 : ℚ) ≤ defaultRetryConfig.backoffFactor)
    ∧ (retryMessage defaultRetryConfig 0 sampleRetryItem).attempts = 2 :=
  ⟨⟨by norm_num [defaultRetryConfig], by norm_num [defaultRetryConfig]⟩,
   (retryMessage_backoff defaultRetryConfig 0 sampleRetryItem
      (by norm_num [defaultRetryConfig]) (by norm_num [defaultRetryConfig])).1⟩

/-- The pending map of the RetryService, keyed by packet id. -/
abbrev RetryMap := List (Bytes × RetryItemS)

/-- One invocation of a completion callback, as the Go code performs it:
Delivered from MarkDelivered, Failed from handleFailedDelivery. -/
inductive CallbackEvent where
  | delivered (id : Bytes) (attempts : Nat)
  | failed (id : Bytes) (attempts : Nat)
  deriving DecidableEq

/-- Go `delete(rs.retryItems, id)`. -/
def pendingErase (m : RetryMap) (id : Bytes) : RetryMap :=
  m.filter (fun e => !(e.1 == id))

/-- RetryService.AddRetryPacket: idempotent by id; a fresh entry starts
with one attempt and its next attempt after InitialBackoff. -/
def addRetryPacket (cfg : RetryConfigS) (now : ℚ) (m : RetryMap)
    (id target : Bytes) : RetryMap :=
  match mapLookup m id with
  | some _ => m
  | none => (id, ⟨target, 1, now, now + cfg.initialBackoff⟩) :: m

/-- RetryService.MarkDelivered: on a pending entry invokes the callback
with success and removes the entry; otherwise does nothing. -/
def markDelivered (m : RetryMap) (id : Bytes) : RetryMap × List CallbackEvent :=
  match mapLookup m id with
  | some item => (pendingErase m id, [.delivered id item.attempts])
  | none => (m, [])

/-- RetryService.handleFailedDelivery: on a pending entry invokes the
callback with failure and removes the entry; otherwise does nothing.
Reached both from processRetries (attempts ≥ MaxRetries) and from the
MaxRetryTime timer started by AddRetryPacket. -/
def handleFailedDelivery (m : RetryMap) (id : Bytes) : RetryMap × List CallbackEvent :=
  match mapLookup m id with
  | some item => (pendingErase m id, [.failed id item.attempts])
  | none => (m, [])

/-- `now.After(item.NextAttempt)`. -/
def retryDue (now : ℚ) (e : Bytes × RetryItemS) : Bool :=
  decide (e.2.nextAttempt < now)

/-- The per-entry update performed by the retry pass of processRetries. -/
def tickUpdate (cfg : RetryConfigS) (now : ℚ) (e : Bytes × RetryItemS) :
    Bytes × RetryItemS :=
  if retryDue now e && decide (e.2.attempts < cfg.maxRetries)
  then (e.1, retryMessage cfg now e.2) else e

/-- RetryService.processRetries: due entries with attempts below
MaxRetries are retried (attempt incremented, next attempt rescheduled);
due entries at or above MaxRetries are removed through
handleFailedDelivery, emitting one Failed callback each. -/
def processRetries (cfg : RetryConfigS) (now : ℚ) (m : RetryMap) :
    RetryMap × List CallbackEvent :=
  let toFail := m.filter (fun e => retryDue now e && decide (cfg.maxRetries ≤ e.2.attempts))
  let m1 := m.map (tickUpdate cfg now)
  (m1.filter (fun e => !((toFail.map (fun x => x.1)).contains e.1)),
   toFail.map (fun e => CallbackEvent.failed e.1 e.2.attempts))

/-- The operations that touch the pending map. -/
inductive RetryOp where
  | add (id target : Bytes) (now : ℚ)
  | deliver (id : Bytes)
  | expire (id : Bytes)
  | tick (now : ℚ)

def retryStep (cfg : RetryConfigS) (m : RetryMap) : RetryOp → RetryMap × List CallbackEvent
  | .add id target now => (addRetryPacket cfg now m id target, [])
  | .deliver id => markDelivered m id
  | .expire id => handleFailedDelivery m id
  | .tick now => processRetries cfg now m

def retryRun (cfg : RetryConfigS) (m : RetryMap) :
    List RetryOp → RetryMap × List CallbackEvent
  | [] => (m, [])
  | op :: ops =>
    ((retryRun cfg (retryStep cfg m op).1 ops).1,
     (retryStep cfg m op).2 ++ (retryRun cfg (retryStep cfg m op).1 ops).2)

def eventId : CallbackEvent → Bytes
  | .delivered id _ => id
  | .failed id _ => id

/-- How many callbacks fired for a given id. -/
def countFor (id : Bytes) (evs : List CallbackEvent) : Nat :=
  (evs.filter (fun e => eventId e == id)).length

def isAddFor (id : Bytes) : RetryOp → Bool
  | .add i _ _ => i == id
  | _ => false

/-- 1 when the id is pending, else 0. -/
def pendingBit (m : RetryMap) (id : Bytes) : Nat :=
  if (mapLookup m id).isSome then 1 else 0

/-- The Go map invariant: keys are unique. -/
def keysNodup (m : RetryMap) : Prop := (m.map (fun e => e.1)).Nodup

theorem mapLookup_eq_none_iff {α : Type} (m : List (Bytes × α)) (id : Bytes) :
    mapLookup m id = none ↔ ∀ e ∈ m, ¬ e.1 = id := by
  simp [mapLookup, List.find?_eq_none]

theorem mapLookup_eq_some_mem {α : Type} (m : List (Bytes × α)) (id : Bytes) (v : α)
    (h : mapLookup m id = some v) : ∃ e ∈ m, e.1 = id ∧ e.2 = v := by
  unfold mapLookup at h
  cases hf : m.find? (fun e => e.1 == id) with
  | none => rw [hf] at h; simp at h
  | some e =>
    rw [hf] at h
    simp at h
    refine ⟨e, List.mem_of_find?_eq_some hf, ?_, h⟩
    have := List.find?_some hf
    simpa using this

theorem mapLookup_erase_self (m : RetryMap) (id : Bytes) :
    mapLookup (pendingErase m id) id = none := by
  rw [mapLookup_eq_none_iff]
  intro e he
  have := List.of_mem_filter he
  simpa using this

theorem mapLookup_cons_self {α : Type} (e : Bytes × α) (m : List (Bytes × α))
    (id : Bytes) (h : e.1 = id) : mapLookup (e :: m) id = some e.2 := by
  have hb : (e.1 == id) = true := by simpa using h
  simp [mapLookup, List.find?, hb]

theorem mapLookup_cons_ne {α : Type} (e : Bytes × α) (m : List (Bytes × α))
    (id : Bytes) (h : ¬ e.1 = id) : mapLookup (e :: m) id = mapLookup m id := by
  have hb : (e.1 == id) = false := by simpa using h
  simp [mapLookup, List.find?, hb]

theorem pendingErase_cons_self (e : Bytes × RetryItemS) (t : RetryMap) (j : Bytes)
    (h : e.1 = j) : pendingErase (e :: t) j = pendingErase t j := by
  have hb : (e.1 == j) = true := by simpa using h
  simp [pendingErase, List.filter, hb]

theorem pendingErase_cons_ne (e : Bytes × RetryItemS) (t : RetryMap) (j : Bytes)
    (h : ¬ e.1 = j) : pendingErase (e :: t) j = e :: pendingErase t j := by
  have hb : (e.1 == j) = false := by simpa using h
  simp [pendingErase, List.filter, hb]

theorem mapLookup_erase_ne (m : RetryMap) (i j : Bytes) (h : ¬ i = j) :
    mapLookup (pendingErase m j) i = mapLookup m i := by
  induction m with
  | nil => rfl
  | cons e t ih =>
    by_cases hej : e.1 = j
    · have hei : ¬ e.1 = i := fun he => h (he ▸ hej)
      rw [pendingErase_cons_self e t j hej, mapLookup_cons_ne e t i hei, ih]
    · rw [pendingErase_cons_ne e t j hej]
      by_cases hei : e.1 = i
      · rw [mapLookup_cons_self _ _ _ hei, mapLookup_cons_self e t i hei]
      · rw [mapLookup_cons_ne _ _ _ hei, mapLookup_cons_ne e t i hei, ih]

theorem keysNodup_erase (m : RetryMap) (id : Bytes) (hnd : keysNodup m) :
    keysNodup (pendingErase m id) := by
  unfold keysNodup pendingErase at *
  exact hnd.sublist ((List.filter_sublist m).map (fun e => e.1))

theorem countFor_append (id : Bytes) (a b : List CallbackEvent) :
    countFor id (a ++ b) = countFor id a + countFor id b := by
  simp [countFor, List.filter_append]

theorem pendingBit_le_one (m : RetryMap) (id : Bytes) : pendingBit m id ≤ 1 := by
  unfold pendingBit
  split <;> omega

theorem pendingBit_cons_self (e : Bytes × RetryItemS) (m : RetryMap) (id : Bytes)
    (h : e.1 = id) : pendingBit (e :: m) id = 1 := by
  simp [pendingBit, mapLookup_cons_self e m id h]

theorem pendingBit_cons_ne (e : Bytes × RetryItemS) (m : RetryMap) (id : Bytes)
    (h : ¬ e.1 = id) : pendingBit (e :: m) id = pendingBit m id := by
  simp [pendingBit, mapLookup_cons_ne e m id h]

theorem countFor_failed_map (id : Bytes) (l : RetryMap) :
    countFor id (l.map (fun e => CallbackEvent.failed e.1 e.2.attempts))
      = (l.filter (fun e => e.1 == id)).length := by
  induction l with
  | nil => rfl
  | cons e t ih =>
    unfold countFor at *
    simp only [List.map_cons, List.filter_cons]
    have hev : (eventId (CallbackEvent.failed e.1 e.2.attempts) == id) = (e.1 == id) := rfl
    rw [hev]
    cases hb : (e.1 == id) with
    | true => simp only [hb, if_true, List.length_cons, ih]
    | false => simp only [hb, Bool.false_eq_true, if_false]; exact ih

theorem length_filter_and_le {α : Type} (p r : α → Bool) (l : List α) :
    (l.filter (fun a => p a && r a)).length ≤ (l.filter r).length := by
  induction l with
  | nil => simp
  | cons x t ih =>
    simp only [List.filter]
    cases hp : p x <;> cases hr : r x <;> simp [List.length_cons] <;> omega

theorem length_filter_and_le_left {α : Type} (p r : α → Bool) (l : List α) :
    (l.filter (fun a => p a && r a)).length ≤ (l.filter p).length := by
  induction l with
  | nil => simp
  | cons x t ih =>
    simp only [List.filter]
    cases hp : p x <;> cases hr : r x <;> simp [List.length_cons] <;> omega

theorem length_filter_key (m : RetryMap) (id : Bytes) (hnd : keysNodup m) :
    (m.filter (fun e => e.1 == id)).length = pendingBit m id := by
  induction m with
  | nil => rfl
  | cons e t ih =>
    have hnd' : keysNodup t := by
      unfold keysNodup at *
      simpa using (List.nodup_cons.mp (by simpa using hnd)).2
    have hnotin : e.1 ∉ t.map (fun x => x.1) := by
      unfold keysNodup at hnd
      exact (List.nodup_cons.mp (by simpa using hnd)).1
    by_cases h : e.1 = id
    · have hb : (e.1 == id) = true := by simpa using h
      have hnil : t.filter (fun x => x.1 == id) = [] := by
        rw [List.filter_eq_nil_iff]
        intro x hx hbx
        exact hnotin (h ▸ (by simpa using hbx) ▸ List.mem_map_of_mem (fun y => y.1) hx)
      simp [List.filter, hb, hnil, pendingBit_cons_self e t id h]
    · have hb : (e.1 == id) = false := by simpa using h
      simp [List.filter, hb, ih hnd', pendingBit_cons_ne e t id h]

theorem tickUpdate_key (cfg : RetryConfigS) (now : ℚ) (e : Bytes × RetryItemS) :
    (tickUpdate cfg now e).1 = e.1 := by
  unfold tickUpdate
  split <;> rfl

theorem tick_keys (cfg : RetryConfigS) (now : ℚ) (m : RetryMap) :
    (m.map (tickUpdate cfg now)).map (fun e => e.1) = m.map (fun e => e.1) := by
  rw [List.map_map]
  exact List.map_congr_left (fun e _ => tickUpdate_key cfg now e)

theorem mapLookup_none_of_not_mem_keys {α : Type} (m : List (Bytes × α)) (id : Bytes)
    (h : id ∉ m.map (fun e => e.1)) : mapLookup m id = none := by
  rw [mapLookup_eq_none_iff]
  intro e he heq
  exact h (heq ▸ List.mem_map_of_mem (fun y => y.1) he)

theorem mem_keys_of_mapLookup_isSome {α : Type} (m : List (Bytes × α)) (id : Bytes)
    (h : (mapLookup m id).isSome) : id ∈ m.map (fun e => e.1) := by
  by_contra hc
  rw [mapLookup_none_of_not_mem_keys m id hc] at h
  simp at h

theorem mapLookup_filter_not_contains (m1 : RetryMap) (ids : List Bytes) (id : Bytes)
    (h : ids.contains id = true) :
    mapLookup (m1.filter (fun e => !(ids.contains e.1))) id = none := by
  rw [mapLookup_eq_none_iff]
  intro e he heq
  have := List.of_mem_filter he
  rw [heq, h] at this
  simp at this

theorem keys_map_eq {α : Type} (upd : (Bytes × α) → (Bytes × α))
    (hupd : ∀ e, (upd e).1 = e.1) (m : List (Bytes × α)) :
    (m.map upd).map (fun e => e.1) = m.map (fun e => e.1) := by
  rw [List.map_map]
  exact List.map_congr_left (fun e _ => hupd e)

theorem tick_nodup_general (q : Bytes × RetryItemS → Bool)
    (upd : Bytes × RetryItemS → Bytes × RetryItemS) (hupd : ∀ e, (upd e).1 = e.1)
    (m : RetryMap) (hnd : keysNodup m) :
    keysNodup ((m.map upd).filter
      (fun e => !(((m.filter q).map (fun x => x.1)).contains e.1))) := by
  unfold keysNodup at *
  have hsub := (List.filter_sublist (l := m.map upd)
    (p := fun e => !(((m.filter q).map (fun x => x.1)).contains e.1))).map
      (fun e : Bytes × RetryItemS => e.1)
  rw [keys_map_eq upd hupd m] at hsub
  exact hnd.sublist hsub

theorem tick_bound_general (q : Bytes × RetryItemS → Bool)
    (upd : Bytes × RetryItemS → Bytes × RetryItemS) (hupd : ∀ e, (upd e).1 = e.1)
    (m : RetryMap) (id : Bytes) (hnd : keysNodup m) :
    countFor id ((m.filter q).map (fun e => CallbackEvent.failed e.1 e.2.attempts))
      + pendingBit ((m.map upd).filter
          (fun e => !(((m.filter q).map (fun x => x.1)).contains e.1))) id
      ≤ pendingBit m id := by
  rw [countFor_failed_map]
  have h1 : ((m.filter q).filter (fun e => e.1 == id)).length
      = (m.filter (fun a => (a.1 == id) && q a)).length := by
    rw [List.filter_filter]
  have h2 : (m.filter (fun a => (a.1 == id) && q a)).length
      ≤ (m.filter (fun a => a.1 == id)).length :=
    length_filter_and_le_left (fun a => a.1 == id) q m
  have h3 : (m.filter (fun a => a.1 == id)).length = pendingBit m id :=
    length_filter_key m id hnd
  by_cases hzero : ((m.filter q).filter (fun e => e.1 == id)).length = 0
  · rw [hzero]
    simp only [Nat.zero_add]
    by_cases hmem : id ∈ m.map (fun e => e.1)
    · have hb1 : pendingBit m id = 1 := by
        unfold pendingBit
        obtain ⟨e, he, heq⟩ := List.mem_map.mp hmem
        cases hl : mapLookup m id with
        | some v => simp
        | none =>
          rw [mapLookup_eq_none_iff] at hl
          exact absurd heq (hl e he)
      rw [hb1]
      exact pendingBit_le_one _ id
    · have hmem' : id ∉ ((m.map upd).filter
          (fun e => !(((m.filter q).map (fun x => x.1)).contains e.1))).map
            (fun e => e.1) := by
        intro hin
        apply hmem
        have hsub := (List.filter_sublist (l := m.map upd)
          (p := fun e => !(((m.filter q).map (fun x => x.1)).contains e.1))).map
            (fun e : Bytes × RetryItemS => e.1)
        rw [keys_map_eq upd hupd m] at hsub
        exact hsub.mem hin
      unfold pendingBit
      rw [mapLookup_none_of_not_mem_keys _ _ hmem']
      simp only [Option.isSome_none, Bool.false_eq_true, if_false]
      exact Nat.zero_le _
  · have hpos : 0 < ((m.filter q).filter (fun e => e.1 == id)).length :=
      Nat.pos_of_ne_zero hzero
    obtain ⟨e, he⟩ := List.exists_mem_of_length_pos hpos
    have hekey : e.1 = id := by simpa using List.of_mem_filter he
    have hmemq : e ∈ m.filter q := List.mem_of_mem_filter he
    have hcontains : (((m.filter q).map (fun x => x.1)).contains id) = true := by
      have hidm : id ∈ (m.filter q).map (fun x => x.1) :=
        hekey ▸ List.mem_map_of_mem (fun x => x.1) hmemq
      simpa using hidm
    have hb0 : pendingBit ((m.map upd).filter
        (fun e => !(((m.filter q).map (fun x => x.1)).contains e.1))) id = 0 := by
      unfold pendingBit
      rw [mapLookup_filter_not_contains _ _ _ hcontains]
      rfl
    rw [hb0]
    rw [h1] at *
    omega

theorem processRetries_fst (cfg : RetryConfigS) (now : ℚ) (m : RetryMap) :
    (processRetries cfg now m).1 = (m.map (tickUpdate cfg now)).filter
      (fun e => !(((m.filter (fun e => retryDue now e
          && decide (cfg.maxRetries ≤ e.2.attempts))).map (fun x => x.1)).contains e.1)) := rfl

theorem processRetries_snd (cfg : RetryConfigS) (now : ℚ) (m : RetryMap) :
    (processRetries cfg now m).2 = (m.filter (fun e => retryDue now e
        && decide (cfg.maxRetries ≤ e.2.attempts))).map
      (fun e => CallbackEvent.failed e.1 e.2.attempts) := rfl

theorem processRetries_nodup (cfg : RetryConfigS) (now : ℚ) (m : RetryMap)
    (hnd : keysNodup m) : keysNodup (processRetries cfg now m).1 := by
  rw [processRetries_fst]
  exact tick_nodup_general _ _ (tickUpdate_key cfg now) m hnd

theorem processRetries_bound (cfg : RetryConfigS) (now : ℚ) (m : RetryMap) (id : Bytes)
    (hnd : keysNodup m) :
    countFor id (processRetries cfg now m).2
      + pendingBit (processRetries cfg now m).1 id ≤ pendingBit m id := by
  rw [processRetries_fst, processRetries_snd]
  exact tick_bound_general _ _ (tickUpdate_key cfg now) m id hnd

theorem length_filter_filter_key_le (q : Bytes × RetryItemS → Bool) (m : RetryMap)
    (id : Bytes) (hnd : keysNodup m) :
    ((m.filter q).filter (fun e => e.1 == id)).length ≤ pendingBit m id := by
  rw [List.filter_filter]
  exact le_trans (length_filter_and_le_left (fun a => a.1 == id) q m)
    (le_of_eq (length_filter_key m id hnd))

theorem retryStep_bound (cfg : RetryConfigS) (m : RetryMap) (op : RetryOp) (id : Bytes)
    (hnd : keysNodup m) :
    keysNodup (retryStep cfg m op).1
    ∧ countFor id (retryStep cfg m op).2 + pendingBit (retryStep cfg m op).1 id
        ≤ pendingBit m id + (if isAddFor id op then 1 else 0) := by
  cases op with
  | add i target now =>
    simp only [retryStep, addRetryPacket]
    cases hl : mapLookup m i with
    | some v =>
      refine ⟨hnd, ?_⟩
      simp only [countFor, List.filter_nil, List.length_nil, Nat.zero_add]
      split <;> omega
    | none =>
      constructor
      · unfold keysNodup at *
        simp only [List.map_cons]
        refine List.nodup_cons.mpr ⟨?_, hnd⟩
        intro hin
        rw [mapLookup_eq_none_iff] at hl
        obtain ⟨e, he, heq⟩ := List.mem_map.mp hin
        exact hl e he heq
      · have h0 : countFor id ([] : List CallbackEvent) = 0 := rfl
        rw [h0, Nat.zero_add]
        by_cases hii : i = id
        · rw [pendingBit_cons_self _ _ _ (by simpa using hii)]
          have ha : isAddFor id (RetryOp.add i target now) = true := by
            simp [isAddFor, hii]
          rw [ha]
          simp only [if_true]
          omega
        · rw [pendingBit_cons_ne _ _ _ (by simpa using hii)]
          split <;> omega
  | deliver i =>
    simp only [retryStep, markDelivered]
    cases hl : mapLookup m i with
    | none =>
      refine ⟨hnd, ?_⟩
      simp only [countFor, List.filter_nil, List.length_nil, Nat.zero_add]
      split <;> omega
    | some item =>
      refine ⟨keysNodup_erase m i hnd, ?_⟩
      by_cases hii : i = id
      · subst hii
        have hone : countFor i [CallbackEvent.delivered i item.attempts] = 1 := by
          simp [countFor, eventId]
        have hb0 : pendingBit (pendingErase m i) i = 0 := by
          unfold pendingBit; rw [mapLookup_erase_self]; rfl
        have hb1 : pendingBit m i = 1 := by
          unfold pendingBit; rw [hl]; rfl
        rw [hone, hb0, hb1]
        split <;> omega
      · have hzero : countFor id [CallbackEvent.delivered i item.attempts] = 0 := by
          have hb : (i == id) = false := by simpa using hii
          simp [countFor, eventId, hb]
        have hbe : pendingBit (pendingErase m i) id = pendingBit m id := by
          unfold pendingBit
          rw [mapLookup_erase_ne m id i (fun h => hii h.symm)]
        rw [hzero, hbe]
        split <;> omega
  | expire i =>
    simp only [retryStep, handleFailedDelivery]
    cases hl : mapLookup m i with
    | none =>
      refine ⟨hnd, ?_⟩
      simp only [countFor, List.filter_nil, List.length_nil, Nat.zero_add]
      split <;> omega
    | some item =>
      refine ⟨keysNodup_erase m i hnd, ?_⟩
      by_cases hii : i = id
      · subst hii
        have hone : countFor i [CallbackEvent.failed i item.attempts] = 1 := by
          simp [countFor, eventId]
        have hb0 : pendingBit (pendingErase m i) i = 0 := by
          unfold pendingBit; rw [mapLookup_erase_self]; rfl
        have hb1 : pendingBit m i = 1 := by
          unfold pendingBit; rw [hl]; rfl
        rw [hone, hb0, hb1]
        split <;> omega
      · have hzero : countFor id [CallbackEvent.failed i item.attempts] = 0 := by
          have hb : (i == id) = false := by simpa using hii
          simp [countFor, eventId, hb]
        have hbe : pendingBit (pendingErase m i) id = pendingBit m id := by
          unfold pendingBit
          rw [mapLookup_erase_ne m id i (fun h => hii h.symm)]
        rw [hzero, hbe]
        split <;> omega
  | tick now =>
    refine ⟨processRetries_nodup cfg now m hnd, ?_⟩
    have hb := processRetries_bound cfg now m id hnd
    simp only [retryStep]
    split <;> omega

theorem retryRun_bound (cfg : RetryConfigS) (id : Bytes) :
    ∀ (ops : List RetryOp) (m : RetryMap), keysNodup m →
      countFor id (retryRun cfg m ops).2
        ≤ pendingBit m id + (ops.filter (isAddFor id)).length := by
  intro ops
  induction ops with
  | nil =>
    intro m h
    simp [retryRun, countFor]
  | cons op ops ih =>
    intro m hnd
    obtain ⟨hnd', hb⟩ := retryStep_bound cfg m op id hnd
    have hrec := ih (retryStep cfg m op).1 hnd'
    simp only [retryRun]
    rw [countFor_append]
    have hfc : ((op :: ops).filter (isAddFor id)).length
        = (if isAddFor id op then 1 else 0) + (ops.filter (isAddFor id)).length := by
      simp only [List.filter]
      cases h : isAddFor id op <;> (simp [h]; try omega)
    rw [hfc]
    omega

/-- C5: for each pending retry entry the completion callback fires
exactly once — Delivered when MarkDelivered runs on a pending entry,
Failed when the MaxRetryTime timer fires on a pending entry or when a
due entry has reached MaxRetries at a tick — the entry is removed in
every such case, resolved ids trigger nothing further, and along any
operation sequence the number of callbacks for an id never exceeds its
initial pending state plus the number of adds for that id. -/
theorem retry_callback_exactly_once (cfg : RetryConfigS) (m : RetryMap) (id : Bytes)
    (hnd : keysNodup m) :
    (∀ item, mapLookup m id = some item →
       markDelivered m id = (pendingErase m id, [CallbackEvent.delivered id item.attempts])
       ∧ handleFailedDelivery m id
           = (pendingErase m id, [CallbackEvent.failed id item.attempts])
       ∧ mapLookup (pendingErase m id) id = (none : Option RetryItemS))
    ∧ (mapLookup m id = (none : Option RetryItemS) →
       markDelivered m id = (m, []) ∧ handleFailedDelivery m id = (m, []))
    ∧ (∀ (now : ℚ) item, mapLookup m id = some item → item.nextAttempt < now →
        cfg.maxRetries ≤ item.attempts →
        countFor id (processRetries cfg now m).2 = 1
        ∧ mapLookup (processRetries cfg now m).1 id = (none : Option RetryItemS))
    ∧ (∀ ops, countFor id (retryRun cfg m ops).2
        ≤ pendingBit m id + (ops.filter (isAddFor id)).length) := by
  refine ⟨?_, ?_, ?_, fun ops => retryRun_bound cfg id ops m hnd⟩
  · intro item hl
    exact ⟨by simp [markDelivered, hl], by simp [handleFailedDelivery, hl],
      mapLookup_erase_self m id⟩
  · intro hl
    exact ⟨by simp [markDelivered, hl], by simp [handleFailedDelivery, hl]⟩
  · intro now item hl hdue hmax
    obtain ⟨e0, he0, hk0, hv0⟩ := mapLookup_eq_some_mem m id item hl
    have hq : (retryDue now e0 && decide (cfg.maxRetries ≤ e0.2.attempts)) = true := by
      simp [retryDue, hv0, hdue, hmax]
    have hmemf : e0 ∈ (m.filter (fun e => retryDue now e
        && decide (cfg.maxRetries ≤ e.2.attempts))).filter (fun e => e.1 == id) :=
      List.mem_filter.mpr ⟨List.mem_filter.mpr ⟨he0, hq⟩, by simpa using hk0⟩
    constructor
    · rw [processRetries_snd, countFor_failed_map]
      have hge : 0 < ((m.filter (fun e => retryDue now e
          && decide (cfg.maxRetries ≤ e.2.attempts))).filter (fun e => e.1 == id)).length :=
        List.length_pos.mpr (List.ne_nil_of_mem hmemf)
      have hle := length_filter_filter_key_le (fun e => retryDue now e
          && decide (cfg.maxRetries ≤ e.2.attempts)) m id hnd
      have hbit : pendingBit m id = 1 := by
        unfold pendingBit; rw [hl]; rfl
      omega
    · rw [processRetries_fst]
      apply mapLookup_filter_not_contains
      have hidm : id ∈ (m.filter (fun e => retryDue now e
          && decide (cfg.maxRetries ≤ e.2.attempts))).map (fun x => x.1) :=
        hk0 ▸ List.mem_map_of_mem (fun x => x.1) (List.mem_filter.mpr ⟨he0, hq⟩)
      simpa using hidm

/-- Concrete pending map for the C5 witness. -/
def retryCexMap : RetryMap := [([1], ⟨[2], 1, 0, 5000000000⟩)]

/-- Witness for C5: the concrete pending entry is delivered exactly once
and a subsequent run of deliver-then-expire fires at most one callback. -/
theorem retry_callback_exactly_once_witness :
    markDelivered retryCexMap [1]
      = (pendingErase retryCexMap [1], [CallbackEvent.delivered [1] 1])
    ∧ countFor [1] (retryRun defaultRetryConfig retryCexMap
        [RetryOp.deliver [1], RetryOp.expire [1]]).2
      ≤ pendingBit retryCexMap [1]
        + (([RetryOp.deliver [1], RetryOp.expire [1]].filter (isAddFor [1]))).length :=
  ⟨((retry_callback_exactly_once defaultRetryConfig retryCexMap [1]
      (by simp [keysNodup, retryCexMap])).1 ⟨[2], 1, 0, 5000000000⟩ rfl).1,
   (retry_callback_exactly_once defaultRetryConfig retryCexMap [1]
      (by simp [keysNodup, retryCexMap])).2.2.2
     [RetryOp.deliver [1], RetryOp.expire [1]]⟩

/-! ## Mesh kernel (internal/bluetooth BluetoothMeshService) -/

/-- DeliveryStatus constants (iota order in types.go). -/
def DeliveryStatusDelivered : Nat := 2
def DeliveryStatusRead : Nat := 3

/-- UTF-8 bytes of a Go string literal. -/
def strBytes (s : String) : Bytes := s.toUTF8.toList.map (fun b => b.toNat)

def decryptFailContent : Bytes :=
  strBytes "[Mensagem criptografada - chave não disponível]"

def invalidSigWarning : Bytes := strBytes "[AVISO: Assinatura inválida] "

structure PeerS where
  name : Bytes
  publicKeyData : Bytes
  lastSeen : ℚ
  deriving DecidableEq

structure CachedMessageS where
  packet : BitchatPacket
  receivedAt : ℚ
  expiresAt : ℚ
  deliveredTo : List Bytes
  originalSender : Bytes
  deriving DecidableEq

structure BitchatMessageS where
  id : Bytes
  sender : Bytes
  content : Bytes
  timestamp : Nat
  isRelay : Bool
  senderPeerID : Bytes
  isPrivate : Bool
  isEncrypted : Bool
  deriving DecidableEq

/-- The MeshDelegate callbacks. -/
inductive MeshEvent where
  | peerDiscovered (peerID name : Bytes)
  | peerLost (peerID : Bytes)
  | messageReceived (message : BitchatMessageS)
  | deliveryChanged (messageID : Bytes) (status : Nat)
  deriving DecidableEq

structure MeshState where
  deviceID : Bytes
  deviceName : Bytes
  encState : EncState
  peers : List (Bytes × PeerS)
  cacheMessages : List (Bytes × CachedMessageS)
  cacheMaxSize : Nat
  seen : List (Bytes × ℚ)
  seenTTL : ℚ
  batteryMode : Nat
  coverTraffic : Bool
  deriving DecidableEq

/-- The cryptographic primitives the service calls into, passed as
parameters of the model: NaCl box open and seal, Ed25519 verify and
sign, X25519, and HKDF-SHA256. -/
structure CryptoPrims where
  boxOpen : Bytes → Bytes → Bytes → Bytes → Option Bytes
  boxSeal : Bytes → Bytes → Bytes → Bytes → Bytes
  edVerify : Bytes → Bytes → Bytes → Bool
  edSign : Bytes → Bytes
  x25519 : Bytes → Bytes → Bytes
  hkdfSHA256 : HKDFCall → Bytes

/-- ExpiringSet.Contains: present and not yet expired. -/
def expSetContains (s : List (Bytes × ℚ)) (now : ℚ) (item : Bytes) : Bool :=
  match s.find? (fun e => e.1 == item) with
  | some e => decide (now < e.2)
  | none => false

/-- ExpiringSet.Add: keeps an unexpired entry, otherwise stores the item
with expiry now + ttl. -/
def expSetAdd (s : List (Bytes × ℚ)) (ttl now : ℚ) (item : Bytes) : List (Bytes × ℚ) :=
  match s.find? (fun e => e.1 == item) with
  | some e =>
    if now < e.2 then s
    else (item, now + ttl) :: s.filter (fun x => !(x.1 == item))
  | none => (item, now + ttl) :: s

def defaultMessageCacheTTL : ℚ := 300000000000

/-- The eviction scan of addToMessageCache: the first entry with the
smallest ReceivedAt. -/
def oldestCacheKey (l : List (Bytes × CachedMessageS)) : Option Bytes :=
  (l.foldl (fun acc e =>
    match acc with
    | none => some (e.1, e.2.receivedAt)
    | some kt => if e.2.receivedAt < kt.2 then some (e.1, e.2.receivedAt) else some kt)
    none).map (fun kt => kt.1)

/-- BluetoothMeshService.addToMessageCache: no-op on a known id, evicts
the oldest entry at capacity, and stores with a battery-scaled TTL. -/
def addToMessageCache (st : MeshState) (now : ℚ) (messageID : Bytes)
    (packet : BitchatPacket) (originalSender : Bytes) : MeshState :=
  if (mapLookup st.cacheMessages messageID).isSome then st
  else
    let afterEvict :=
      if st.cacheMaxSize ≤ st.cacheMessages.length then
        match oldestCacheKey st.cacheMessages with
        | some k => st.cacheMessages.filter (fun e => !(e.1 == k))
        | none => st.cacheMessages
      else st.cacheMessages
    let ttl := if st.batteryMode = 1 then defaultMessageCacheTTL / 2
      else if st.batteryMode = 2 then defaultMessageCacheTTL / 4
      else defaultMessageCacheTTL
    { st with
      cacheMessages := (messageID, ⟨packet, now, now + ttl, [], originalSender⟩)
        :: afterEvict }

/-- BluetoothMeshService.isPacketForUs. -/
def isPacketForUsS (st : MeshState) (packet : BitchatPacket) : Bool :=
  (packet.recipientID == BroadcastRecipient) || (packet.recipientID == st.deviceID)

/-- EncryptionService.Decrypt: size checks, then box.Open with the
sender public key and the local private key.  (The Go fallback retries
box.Open with byte-identical keys, so one call suffices.) -/
def decryptS (prims : CryptoPrims) (es : EncState) (ciphertext publicKey nonce : Bytes) :
    Except CryptoErr Bytes :=
  if publicKey.length ≠ 32 then .error .invalidPublicKey
  else if nonce.length ≠ 24 then .error .invalidNonce
  else
    match prims.boxOpen ciphertext nonce publicKey es.privateKey with
    | some pt => .ok pt
    | none => .error .decryptionFailed

/-- EncryptionService.Verify. -/
def verifyS (prims : CryptoPrims) (signature data publicKey : Bytes) :
    Except CryptoErr Bool :=
  if publicKey.length ≠ 32 then .error .invalidPublicKey
  else .ok (prims.edVerify publicKey data signature)

/-- EncryptionService.Encrypt: size check, fresh nonce, box.Seal. -/
def encryptS (prims : CryptoPrims) (es : EncState) (data publicKey nonce : Bytes) :
    Except CryptoErr (Bytes × Bytes) :=
  if publicKey.length ≠ 32 then .error .invalidPublicKey
  else .ok (prims.boxSeal data nonce publicKey es.privateKey, nonce)

/-- The DeliveryAck packet built by sendDeliveryAck. -/
def mkDeliveryAck (prims : CryptoPrims) (st : MeshState) (nowMs : Nat)
    (messageID recipientID : Bytes) : BitchatPacket :=
  { version := 1, type := MessageTypeDeliveryAck, senderID := st.deviceID,
    recipientID := recipientID, timestamp := nowMs, payload := messageID,
    signature := prims.edSign messageID, ttl := 7 }

/-- BluetoothMeshService.handleUserMessage.  `gidMsg` is the value the
random GenerateMessageID call returns for the message id.  Returns the
state, the enqueued outgoing packets, and the delegate events. -/
def handleUserMessage (prims : CryptoPrims) (st : MeshState) (nowMs : Nat)
    (gidMsg : Bytes) (packet : BitchatPacket) :
    MeshState × List BitchatPacket × List MeshEvent :=
  let senderID := packet.senderID
  match mapLookup st.peers senderID with
  | none => (st, [], [])
  | some peer =>
    let isPrivate := packet.recipientID == st.deviceID
    let cd : Bytes × Bool :=
      if isPrivate then
        match decryptS prims st.encState packet.payload senderID [] with
        | .ok pt => (pt, true)
        | .error _ => (decryptFailContent, true)
      else (packet.payload, false)
    let content :=
      if 0 < packet.signature.length then
        match verifyS prims packet.signature packet.payload senderID with
        | .ok true => cd.1
        | _ => invalidSigWarning ++ cd.1
      else cd.1
    let message : BitchatMessageS :=
      ⟨gidMsg, peer.name, content, packet.timestamp, false, senderID, isPrivate, cd.2⟩
    (st, [mkDeliveryAck prims st nowMs gidMsg senderID],
     [MeshEvent.messageReceived message])

/-- BluetoothMeshService.addOrUpdatePeer.  handleAnnounce always passes
a non-nil key slice, so the bundle is always offered to the encryption
service (which rejects non-96-byte data without changing state). -/
def addOrUpdatePeer (prims : CryptoPrims) (st : MeshState) (now : ℚ)
    (peerID name publicKeyData : Bytes) : MeshState × List MeshEvent :=
  let isNew := (mapLookup st.peers peerID).isNone
  let st1 := { st with
    peers := mapInsert peerID ⟨name, publicKeyData, now⟩ st.peers,
    encState :=
      (addPeerPublicKey prims.x25519 prims.hkdfSHA256 st.encState peerID
        publicKeyData).state }
  (st1, if isNew then [MeshEvent.peerDiscovered peerID name] else [])

/-- BluetoothMeshService.handleAnnounce: payload is len8(nick), nick,
then the key bundle. -/
def handleAnnounce (prims : CryptoPrims) (st : MeshState) (now : ℚ)
    (packet : BitchatPacket) : MeshState × List MeshEvent :=
  if packet.payload.length < 2 then (st, [])
  else
    let nameLen := packet.payload.getD 0 0
    if packet.payload.length < 1 + nameLen then (st, [])
    else
      let name := (packet.payload.drop 1).take nameLen
      let publicKeyData := packet.payload.drop (1 + nameLen)
      addOrUpdatePeer prims st now packet.senderID name publicKeyData

/-- EncryptionService.GetCombinedPublicKeyData. -/
def getCombinedPublicKeyData (es : EncState) : Bytes :=
  es.publicKey ++ es.signingPublicKey ++ es.identityPublicKey

/-- The unsigned TTL-1 KeyExchange packet built by sendKeyExchange. -/
def sendKeyExchangePacket (st : MeshState) (nowMs : Nat) (recipientID : Bytes) :
    BitchatPacket :=
  { version := 1, type := MessageTypeKeyExchange, senderID := st.deviceID,
    recipientID := recipientID, timestamp := nowMs,
    payload := getCombinedPublicKeyData st.encState, signature := [], ttl := 1 }

/-- BluetoothMeshService.handleKeyExchange. -/
def handleKeyExchange (prims : CryptoPrims) (st : MeshState) (nowMs : Nat)
    (packet : BitchatPacket) : MeshState × List BitchatPacket × List MeshEvent :=
  let r := addPeerPublicKey prims.x25519 prims.hkdfSHA256 st.encState
    packet.senderID packet.payload
  match r.error with
  | some _ => (st, [], [])
  | none =>
    let st1 := { st with encState := r.state }
    (st1, [sendKeyExchangePacket st1 nowMs packet.senderID], [])

/-- BluetoothMeshService.handleDeliveryAck. -/
def handleDeliveryAckEvents (packet : BitchatPacket) : List MeshEvent :=
  if packet.payload.length < 16 then []
  else [MeshEvent.deliveryChanged (packet.payload.take 16) DeliveryStatusDelivered]

/-- BluetoothMeshService.handleReadReceipt. -/
def handleReadReceiptEvents (packet : BitchatPacket) : List MeshEvent :=
  if packet.payload.length < 16 then []
  else [MeshEvent.deliveryChanged (packet.payload.take 16) DeliveryStatusRead]

/-- BluetoothMeshService.processPacketForUs: dispatch by type. -/
def processPacketForUs (prims : CryptoPrims) (st : MeshState) (now : ℚ)
    (nowMs : Nat) (gidMsg : Bytes) (packet : BitchatPacket) :
    MeshState × List BitchatPacket × List MeshEvent :=
  if packet.type = MessageTypeMessage then
    handleUserMessage prims st nowMs gidMsg packet
  else if packet.type = MessageTypeAnnounce then
    ((handleAnnounce prims st now packet).1, [], (handleAnnounce prims st now packet).2)
  else if packet.type = MessageTypeKeyExchange then
    handleKeyExchange prims st nowMs packet
  else if packet.type = MessageTypeDeliveryAck then
    (st, [], handleDeliveryAckEvents packet)
  else if packet.type = MessageTypeReadReceipt then
    (st, [], handleReadReceiptEvents packet)
  else (st, [], [])

/-- BluetoothMeshService.handleIncomingPacket — the ingress pipeline.
`gid` is the value the random GenerateMessageID call returns for this
invocation, `gidMsg` the one a nested handleUserMessage call returns.
The relay block of the source is a no-op (relaying moved to the
PlatformProvider), so ingress egress consists only of acks and key
exchanges. -/
def handleIncomingPacket (prims : CryptoPrims) (st : MeshState) (now : ℚ)
    (nowMs : Nat) (gid gidMsg : Bytes) (packet : BitchatPacket) :
    MeshState × List BitchatPacket × List MeshEvent :=
  if expSetContains st.seen now gid then (st, [], [])
  else
    let st1 := { st with seen := expSetAdd st.seen st.seenTTL now gid }
    if packet.ttl = 0 then (st1, [], [])
    else
      let p := { packet with ttl := packet.ttl - 1 }
      let st2 := addToMessageCache st1 now gid p p.senderID
      if isPacketForUsS st2 p then processPacketForUs prims st2 now nowMs gidMsg p
      else (st2, [], [])

/-- Concrete primitives for closed evaluations. -/
def cexPrims : CryptoPrims :=
  { boxOpen := fun _ _ _ _ => none, boxSeal := fun data _ _ _ => data,
    edVerify := fun _ _ _ => false, edSign := fun _ => [],
    x25519 := fun _ k => k, hkdfSHA256 := fun c => List.replicate c.outLen 0 }

/-- An unsigned broadcast user message from peer 1..8. -/
def c2Packet : BitchatPacket :=
  { version := 1, type := MessageTypeMessage, senderID := [1, 2, 3, 4, 5, 6, 7, 8],
    recipientID := BroadcastRecipient, timestamp := 1000, payload := [104, 105],
    signature := [], ttl := 3 }

/-- A node that knows the sending peer. -/
def c2State : MeshState :=
  { deviceID := [9, 9, 9, 9, 9, 9, 9, 9], deviceName := [78],
    encState := encCexState, peers := [([1, 2, 3, 4, 5, 6, 7, 8], ⟨[65], [], 0⟩)],
    cacheMessages := [], cacheMaxSize := 1000, seen := [], seenTTL := 300,
    batteryMode := 0, coverTraffic := true }

/-- The same node with the id 0 already in the seen set until time 100. -/
def c2SeenState : MeshState := { c2State with seen := [([0], 100)] }

/-- C2: when the generated id is already in the seen set the pipeline
produces no egress and no delegate call — but GenerateMessageID ignores
the packet and returns a fresh random id on every call, so running the
pipeline twice on the same packet draws two distinct ids and the
delegate OnMessageReceived fires once per run, twice in total. -/
theorem pipeline_duplicate_delegate_calls :
    (handleIncomingPacket cexPrims c2SeenState 50 1000 [0] [3] c2Packet
       = (c2SeenState, [], []))
    ∧ ((handleIncomingPacket cexPrims c2State 50 1000 [10] [11] c2Packet).2.2
       = [MeshEvent.messageReceived
            ⟨[11], [65], [104, 105], 1000, false, [1, 2, 3, 4, 5, 6, 7, 8], false, false⟩])
    ∧ ((handleIncomingPacket cexPrims
          (handleIncomingPacket cexPrims c2State 50 1000 [10] [11] c2Packet).1
          50 1000 [12] [13] c2Packet).2.2
       = [MeshEvent.messageReceived
            ⟨[13], [65], [104, 105], 1000, false, [1, 2, 3, 4, 5, 6, 7, 8], false, false⟩]) := by
  refine ⟨by decide, by decide, by decide⟩

/-- The send-time errors surfaced by SendMessage. -/
inductive SendErr where
  | peerNotFound
  | cryptoFail (e : CryptoErr)
  deriving DecidableEq

/-- The caller-supplied message for SendMessage. -/
structure BitchatMessageIn where
  content : Bytes
  isPrivate : Bool
  recipientNickname : Bytes
  channel : Bytes
  deriving DecidableEq

/-- BluetoothMeshService.findPeerIDByNickname: linear scan, empty id
when no peer has the nickname. -/
def findPeerIDByNickname (peers : List (Bytes × PeerS)) (nickname : Bytes) : Bytes :=
  match peers.find? (fun e => e.2.name == nickname) with
  | some e => e.1
  | none => []

/-- BluetoothMeshService.SendMessage.  `nonce` and `gid` stand for the
random nonce and the random GenerateMessageID result.  The channel and
plain broadcast branches of the source build the identical broadcast
packet, so they share the else branch.  Returns the result handed to
the caller and the packets enqueued on the outgoing queue. -/
def sendMessage (prims : CryptoPrims) (st : MeshState) (nowMs : Nat)
    (nonce gid : Bytes) (msg : BitchatMessageIn) :
    Except SendErr Bytes × List BitchatPacket :=
  let base : BitchatPacket :=
    { version := 1, type := MessageTypeMessage, senderID := st.deviceID,
      recipientID := [], timestamp := nowMs, payload := [], signature := [], ttl := 7 }
  if msg.isPrivate then
    let peerID := findPeerIDByNickname st.peers msg.recipientNickname
    if peerID = [] then (.error .peerNotFound, [])
    else
      match encryptS prims st.encState msg.content peerID nonce with
      | .error e => (.error (.cryptoFail e), [])
      | .ok ct =>
        let p1 := { base with recipientID := peerID, payload := ct.1 }
        (.ok gid, [{ p1 with signature := prims.edSign p1.payload }])
  else
    let p1 := { base with recipientID := BroadcastRecipient, payload := msg.content }
    (.ok gid, [{ p1 with signature := prims.edSign p1.payload }])

/-- C9: a private message whose recipient nickname matches no known peer
makes SendMessage return PeerNotFound and enqueue nothing. -/
theorem sendMessage_peer_not_found (prims : CryptoPrims) (st : MeshState) (nowMs : Nat)
    (nonce gid : Bytes) (msg : BitchatMessageIn)
    (hpriv : msg.isPrivate = true)
    (hnone : ∀ e ∈ st.peers, ¬ e.2.name = msg.recipientNickname) :
    sendMessage prims st nowMs nonce gid msg = (.error .peerNotFound, []) := by
  have hfind : st.peers.find? (fun e => e.2.name == msg.recipientNickname) = none := by
    rw [List.find?_eq_none]
    intro x hx
    simpa using hnone x hx
  simp [sendMessage, hpriv, findPeerIDByNickname, hfind]

/-- Witness for C9: nickname 67 is unknown to the node. -/
theorem sendMessage_peer_not_found_witness :
    (⟨[104, 105], true, [67], []⟩ : BitchatMessageIn).isPrivate = true
    ∧ sendMessage cexPrims c2State 1000 (List.replicate 24 0) [42]
        ⟨[104, 105], true, [67], []⟩ = (.error .peerNotFound, []) :=
  ⟨rfl, sendMessage_peer_not_found cexPrims c2State 1000 (List.replicate 24 0) [42]
    ⟨[104, 105], true, [67], []⟩ rfl (by decide)⟩
